import Mathlib

/-!
Verification of the lottery-results synchronization server (`server.js`).

The embedding models the three stateful components of the source:
the contest fetcher (`fetchContestData`), the bootstrap synchronizer
(`initializeDatabase`, named `initDatabase` here), the incremental
synchronizer (`updateDatabase`) and the per-game query route.

Network traffic is modelled by an explicit oracle.  For the fetcher the
oracle yields the transport-level outcome (`UpstreamBehavior`); for the
synchronizers the oracle directly yields the normalized fetch result
(`Option ContestRecord`), which is what `fetchContestData` hands them.
The durable JSON document is modelled as a map from game name to the
optional stored window, `none` meaning the key is absent.
-/

/-- One contest payload: the contest number (`numero` in the source) plus
an opaque field standing for the rest of the upstream payload. -/
structure ContestRecord where
  numero : Nat
  payload : Nat
deriving DecidableEq

/-- The fixed supported set of games (`LOTTERY_GAMES` in the source). -/
def LOTTERY_GAMES : List String :=
  ["lotofacil", "megasena", "maismilionaria", "quina", "lotomania",
   "timemania", "duplasena", "diadesorte", "supersete"]

/-- The window bound (`CONTESTS_TO_STORE` in the source). -/
def CONTESTS_TO_STORE : Nat := 500

/-- Comparator used when sorting ascending by contest number
(`(a, b) => a.numero - b.numero` in the source). -/
def leNum (a b : ContestRecord) : Prop := a.numero ≤ b.numero

/-- Comparator used when sorting descending by contest number
(`(a, b) => b.numero - a.numero` in the source). -/
def geNum (a b : ContestRecord) : Prop := b.numero ≤ a.numero

/-- Strict ascending order on contest numbers (proof device). -/
def ltNum (a b : ContestRecord) : Prop := a.numero < b.numero

/-- Strict descending order on contest numbers (proof device). -/
def gtNum (a b : ContestRecord) : Prop := b.numero < a.numero

instance : DecidableRel leNum := fun a b => Nat.decLe a.numero b.numero

instance : DecidableRel geNum := fun a b => Nat.decLe b.numero a.numero

instance : IsTotal ContestRecord leNum := ⟨fun a b => Nat.le_total a.numero b.numero⟩

instance : IsTrans ContestRecord leNum := ⟨fun _ _ _ h1 h2 => Nat.le_trans h1 h2⟩

instance : IsTotal ContestRecord geNum := ⟨fun a b => Nat.le_total b.numero a.numero⟩

instance : IsTrans ContestRecord geNum := ⟨fun _ _ _ h1 h2 => Nat.le_trans h2 h1⟩

instance : IsAntisymm ContestRecord ltNum :=
  ⟨fun _ _ h h' => absurd h (Nat.lt_asymm h')⟩

instance : IsAntisymm ContestRecord gtNum :=
  ⟨fun _ _ h h' => absurd h (Nat.lt_asymm h')⟩

/-- Stable sort ascending by contest number, as the JS
`array.sort((a, b) => a.numero - b.numero)`. -/
def sortAsc (l : List ContestRecord) : List ContestRecord :=
  List.insertionSort leNum l

/-- Stable sort descending by contest number, as the JS
`array.sort((a, b) => b.numero - a.numero)`. -/
def sortDesc (l : List ContestRecord) : List ContestRecord :=
  List.insertionSort geNum l

/-- Transport-level outcome of one upstream HTTP request: the request
either throws, or yields a status code together with a parsed body. -/
inductive UpstreamBehavior where
  | failure
  | response (status : Nat) (data : ContestRecord)
deriving DecidableEq

/-- The `response.ok` flag of the fetch API: status in the 2xx range. -/
def responseOk (status : Nat) : Bool :=
  decide (200 ≤ status) && decide (status < 300)

/-- Embedding of `fetchContestData`: first component is the returned
value (`null` becomes `none`), second component records whether a
diagnostic line was written with `console.error`. -/
def fetchContestData : UpstreamBehavior → Option ContestRecord × Bool
  | UpstreamBehavior.failure => (none, true)
  | UpstreamBehavior.response status data =>
      if !(responseOk status) then (none, true)
      else if data.numero = 0 then (none, false)
      else (some data, false)

/-- The durable store document: key present with a window, or absent. -/
def StoreDoc : Type := String → Option (List ContestRecord)

/-- Per-game body of the bootstrap loop in `initializeDatabase`: fetch
the latest contest; on absence or a zero contest number skip the game
(key stays absent, result `none`); otherwise fetch the `N` contest
numbers counting down from the latest, keep the non-absent results and
sort them ascending. -/
def initGame (N : Nat) (fetchGame : Option Nat → Option ContestRecord) :
    Option (List ContestRecord) :=
  match fetchGame none with
  | none => none
  | some latest =>
      if latest.numero = 0 then none
      else
        let nums := (List.range N).filterMap
          (fun i => if 0 < latest.numero - i then some (latest.numero - i) else none)
        some (sortAsc (nums.filterMap (fun n => fetchGame (some n))))

/-- The bootstrap loop over a list of games, building up the document
object (`database[game] = …` only on success). -/
def initStep (f : String → Option Nat → Option ContestRecord)
    (d : StoreDoc) (g : String) : StoreDoc :=
  match initGame CONTESTS_TO_STORE (f g) with
  | some w => fun x => if x = g then some w else d x
  | none => d

/-- The bootstrap loop over a list of games, iterating `initStep`. -/
def initGames (f : String → Option Nat → Option ContestRecord)
    (gs : List String) (db : StoreDoc) : StoreDoc :=
  gs.foldl (initStep f) db

/-- Effect of one bootstrap iteration on the stored value of its own
game: freshly built window, or the unchanged previous value. -/
def initGameValue (f : String → Option Nat → Option ContestRecord)
    (g : String) (v : Option (List ContestRecord)) : Option (List ContestRecord) :=
  match initGame CONTESTS_TO_STORE (f g) with
  | some w => some w
  | none => v

/-- Embedding of `initializeDatabase`'s data construction: starting from
the empty object, run the bootstrap loop over `LOTTERY_GAMES`. -/
def initDatabase (f : String → Option Nat → Option ContestRecord) : StoreDoc :=
  initGames f LOTTERY_GAMES (fun _ => none)

/-- The `latestStoredNumber` computation of `updateDatabase`:
`Math.max` over the stored contest numbers, or `0` for an empty window. -/
def latestStoredNumber (stored : List ContestRecord) : Nat :=
  if 0 < stored.length then (stored.map (fun c => c.numero)).foldr max 0 else 0

/-- Per-game body of the update loop in `updateDatabase`.  First
component: `some w` exactly when the loop reassigns `database[game]`
(to `w`); `none` when the stored window is left untouched.  Second
component: the contest numbers for which a per-contest fetch was
issued. -/
def updateGame (N : Nat) (fetchGame : Option Nat → Option ContestRecord)
    (stored : List ContestRecord) : Option (List ContestRecord) × List Nat :=
  match fetchGame none with
  | none => (none, [])
  | some latest =>
      if latest.numero = 0 then (none, [])
      else
        if latestStoredNumber stored < latest.numero then
          let nums := List.range' (latestStoredNumber stored + 1)
            (latest.numero - latestStoredNumber stored)
          let newResults := nums.filterMap (fun n => fetchGame (some n))
          if 0 < newResults.length then
            (some (sortAsc (((stored ++ newResults) |> sortDesc).take N)), nums)
          else (none, nums)
        else (none, [])

/-- Effect of one iteration of the update loop on the stored value of
its own game: reassigned window, or the unchanged previous value. -/
def updateGameValue (N : Nat) (fetchGame : Option Nat → Option ContestRecord)
    (v : Option (List ContestRecord)) : Option (List ContestRecord) :=
  match (updateGame N fetchGame (v.getD [])).1 with
  | some w => some w
  | none => v

/-- The update loop over a list of games, mutating the in-memory
document object. -/
def updateStep (f : String → Option Nat → Option ContestRecord)
    (d : StoreDoc) (g : String) : StoreDoc :=
  match (updateGame CONTESTS_TO_STORE (f g) ((d g).getD [])).1 with
  | some w => fun x => if x = g then some w else d x
  | none => d

/-- The update loop over a list of games, iterating `updateStep`. -/
def updateGames (f : String → Option Nat → Option ContestRecord)
    (gs : List String) (db : StoreDoc) : StoreDoc :=
  gs.foldl (updateStep f) db

/-- Embedding of `updateDatabase`'s document transformation: the update
loop over `LOTTERY_GAMES` applied to the parsed document. -/
def updateDatabase (f : String → Option Nat → Option ContestRecord)
    (db : StoreDoc) : StoreDoc :=
  updateGames f LOTTERY_GAMES db

/-- Result of one scheduled run of `updateDatabase` against the durable
file: the file afterwards, the document writes performed, and whether
the read-failure error path was logged. -/
structure TickOutcome (σ : Type) where
  file : σ
  writes : List StoreDoc
  readError : Bool

/-- One scheduled incremental run over an abstract durable file `σ`:
if reading/parsing fails the run returns immediately (no write);
otherwise it writes the updated document once at the end. -/
def updateTickRun {σ : Type} (f : String → Option Nat → Option ContestRecord)
    (read : σ → Option StoreDoc) (writeFile : StoreDoc → σ) (s : σ) :
    TickOutcome σ :=
  match read s with
  | none => ⟨s, [], true⟩
  | some db =>
      let db2 := updateDatabase f db
      ⟨writeFile db2, [db2], false⟩

/-- Outcome of the `GET /api/resultados/:gameName` route. -/
inductive QueryResponse where
  | ok (body : List ContestRecord)
  | notFound
  | storeError
deriving DecidableEq

/-- HTTP status attached to each route outcome. -/
def routeStatus : QueryResponse → Nat
  | QueryResponse.ok _ => 200
  | QueryResponse.notFound => 404
  | QueryResponse.storeError => 500

/-- Embedding of the `GET /api/resultados/:gameName` handler.  The store
argument is `none` when the durable document cannot be read or parsed.
Second component: whether the handler attempted to read the store. -/
def getGame (gameName : String) (store : Option StoreDoc) :
    QueryResponse × Bool :=
  if gameName ∈ LOTTERY_GAMES then
    match store with
    | none => (QueryResponse.storeError, true)
    | some db =>
        (QueryResponse.ok (sortDesc ((db gameName).getD [])), true)
  else (QueryResponse.notFound, false)

/-- Spec-side formulation: the contest numbers `L, L-1, …, L-N+1`,
clipped to be positive, in that order. -/
def specCountdown (L N : Nat) : List Nat :=
  (List.range' (L + 1 - min L N) (min L N)).reverse

/-- Spec-side formulation: the non-absent results of fetching every
contest number in the half-open interval `(lo, hi]`. -/
def specNewRecords (fetchGame : Option Nat → Option ContestRecord)
    (lo hi : Nat) : List ContestRecord :=
  (List.range' (lo + 1) (hi - lo)).filterMap (fun n => fetchGame (some n))

/-- Spec-side formulation of the size bound: keep only the `N` highest
contest numbers, sorted ascending (drop the oldest). -/
def specTopN (N : Nat) (l : List ContestRecord) : List ContestRecord :=
  (sortAsc l).drop (l.length - N)

/-- The effective window after one per-game update iteration: the
reassigned window when the loop wrote one, the old window otherwise. -/
def windowAfter (res : Option (List ContestRecord))
    (stored : List ContestRecord) : List ContestRecord :=
  res.getD stored

/-- An oracle is numero-faithful when a per-contest fetch can only
return a record carrying the requested contest number. -/
def numeroFaithful (fetchGame : Option Nat → Option ContestRecord) : Prop :=
  ∀ n r, fetchGame (some n) = some r → r.numero = n

/-- Numero-faithfulness for a whole family of per-game oracles. -/
def numeroFaithfulAll (f : String → Option Nat → Option ContestRecord) : Prop :=
  ∀ g, numeroFaithful (f g)

/-- A window has pairwise-distinct contest numbers. -/
def nodupKeys (l : List ContestRecord) : Prop :=
  (l.map (fun c => c.numero)).Nodup

/-! ## Basic facts about the two sorts -/

theorem sortAsc_perm (l : List ContestRecord) : (sortAsc l).Perm l :=
  List.perm_insertionSort leNum l

theorem sortDesc_perm (l : List ContestRecord) : (sortDesc l).Perm l :=
  List.perm_insertionSort geNum l

theorem sortAsc_sorted (l : List ContestRecord) : List.Sorted leNum (sortAsc l) :=
  List.sorted_insertionSort leNum l

theorem sortDesc_sorted (l : List ContestRecord) : List.Sorted geNum (sortDesc l) :=
  List.sorted_insertionSort geNum l

theorem nodupKeys_of_perm {l l' : List ContestRecord} (h : l.Perm l')
    (hl : nodupKeys l) : nodupKeys l' := by
  unfold nodupKeys at hl ⊢
  exact ((h.map (fun c => c.numero)).nodup_iff).mp hl

theorem nodupKeys_of_sublist {l l' : List ContestRecord} (h : List.Sublist l l')
    (hl : nodupKeys l') : nodupKeys l := by
  unfold nodupKeys at hl ⊢
  exact (h.map (fun c => c.numero)).nodup hl

theorem pairwise_ne_of_nodupKeys {l : List ContestRecord} (h : nodupKeys l) :
    l.Pairwise (fun a b => a.numero ≠ b.numero) :=
  List.pairwise_map.mp h

theorem sorted_lt_of_le_nodup {l : List ContestRecord}
    (hs : List.Sorted leNum l) (hnd : nodupKeys l) : l.Pairwise ltNum :=
  (hs.and (pairwise_ne_of_nodupKeys hnd)).imp
    (fun h => Nat.lt_of_le_of_ne h.1 h.2)

theorem sorted_gt_of_ge_nodup {l : List ContestRecord}
    (hs : List.Sorted geNum l) (hnd : nodupKeys l) : l.Pairwise gtNum :=
  (hs.and (pairwise_ne_of_nodupKeys hnd)).imp
    (fun h => Nat.lt_of_le_of_ne h.1 (fun e => h.2 e.symm))

theorem eq_of_perm_sorted_lt {l l' : List ContestRecord} (hp : l.Perm l')
    (h1 : l.Pairwise ltNum) (h2 : l'.Pairwise ltNum) : l = l' :=
  List.eq_of_perm_of_sorted hp h1 h2

theorem eq_of_perm_sorted_gt {l l' : List ContestRecord} (hp : l.Perm l')
    (h1 : l.Pairwise gtNum) (h2 : l'.Pairwise gtNum) : l = l' :=
  List.eq_of_perm_of_sorted hp h1 h2

theorem sortAsc_eq_self {l : List ContestRecord} (h : List.Sorted leNum l) :
    sortAsc l = l :=
  List.Sorted.insertionSort_eq h

theorem sortDesc_eq_reverse_sortAsc {l : List ContestRecord}
    (hnd : nodupKeys l) : sortDesc l = (sortAsc l).reverse := by
  apply eq_of_perm_sorted_gt
  · exact (sortDesc_perm l).trans ((sortAsc_perm l).symm.trans
      (sortAsc l).reverse_perm.symm)
  · exact sorted_gt_of_ge_nodup (sortDesc_sorted l)
      (nodupKeys_of_perm (sortDesc_perm l).symm hnd)
  · have hlt : (sortAsc l).Pairwise ltNum :=
      sorted_lt_of_le_nodup (sortAsc_sorted l)
        (nodupKeys_of_perm (sortAsc_perm l).symm hnd)
    exact (List.pairwise_reverse).mpr hlt

theorem sortAsc_reverse_of_sorted {l : List ContestRecord}
    (hs : List.Sorted leNum l) (hnd : nodupKeys l) :
    sortAsc l.reverse = l := by
  apply eq_of_perm_sorted_lt
  · exact (sortAsc_perm l.reverse).trans l.reverse_perm
  · exact sorted_lt_of_le_nodup (sortAsc_sorted l.reverse)
      (nodupKeys_of_perm ((sortAsc_perm l.reverse).trans l.reverse_perm).symm hnd)
  · exact sorted_lt_of_le_nodup hs hnd

/-- The trim step of the source (`sort desc`, `take N`, `sort asc`) keeps
exactly the `N` highest contest numbers sorted ascending, i.e. it agrees
with the spec-side `specTopN`, whenever contest numbers are distinct. -/
theorem trim_eq_specTopN (N : Nat) (l : List ContestRecord)
    (hnd : nodupKeys l) :
    sortAsc ((sortDesc l).take N) = specTopN N l := by
  have hlen : (sortAsc l).length = l.length := (sortAsc_perm l).length_eq
  have hAnd : nodupKeys (sortAsc l) := nodupKeys_of_perm (sortAsc_perm l).symm hnd
  have hdropSorted : List.Sorted leNum ((sortAsc l).drop (l.length - N)) :=
    (sortAsc_sorted l).sublist (List.drop_sublist _ _)
  have hdropNd : nodupKeys ((sortAsc l).drop (l.length - N)) :=
    nodupKeys_of_sublist (List.drop_sublist _ _) hAnd
  rw [sortDesc_eq_reverse_sortAsc hnd, List.take_reverse, hlen]
  exact sortAsc_reverse_of_sorted hdropSorted hdropNd

/-! ## Facts about the stored maximum -/

theorem foldr_max_le {l : List Nat} {b : Nat}
    (h : ∀ n ∈ l, n ≤ b) : l.foldr max 0 ≤ b := by
  induction l with
  | nil => exact Nat.zero_le b
  | cons a t ih =>
      simp only [List.foldr_cons]
      exact Nat.max_le.mpr ⟨h a (List.mem_cons_self a t),
        ih (fun n hn => h n (List.mem_cons_of_mem a hn))⟩

theorem le_foldr_max {l : List Nat} {n : Nat} (h : n ∈ l) :
    n ≤ l.foldr max 0 := by
  induction l with
  | nil => cases h
  | cons a t ih =>
      simp only [List.foldr_cons]
      rcases List.mem_cons.mp h with rfl | hm
      · exact Nat.le_max_left n _
      · exact Nat.le_trans (ih hm) (Nat.le_max_right a _)

theorem le_latestStored {stored : List ContestRecord} {r : ContestRecord}
    (h : r ∈ stored) : r.numero ≤ latestStoredNumber stored := by
  unfold latestStoredNumber
  have hlen : 0 < stored.length := List.length_pos.mpr (List.ne_nil_of_mem h)
  rw [if_pos hlen]
  exact le_foldr_max (List.mem_map_of_mem (fun c => c.numero) h)

theorem latestStored_le {stored : List ContestRecord} {b : Nat}
    (h : ∀ r ∈ stored, r.numero ≤ b) : latestStoredNumber stored ≤ b := by
  unfold latestStoredNumber
  split
  · refine foldr_max_le ?_
    intro n hn
    rcases List.mem_map.mp hn with ⟨r, hr, rfl⟩
    exact h r hr
  · exact Nat.zero_le b

theorem latestStored_of_perm {l l' : List ContestRecord} (h : l.Perm l') :
    latestStoredNumber l = latestStoredNumber l' := by
  apply Nat.le_antisymm
  · exact latestStored_le (fun r hr => le_latestStored (h.mem_iff.mp hr))
  · exact latestStored_le (fun r hr => le_latestStored (h.mem_iff.mpr hr))

theorem latestStored_append_left (l l' : List ContestRecord) :
    latestStoredNumber l ≤ latestStoredNumber (l ++ l') :=
  latestStored_le (fun _r hr => le_latestStored (List.mem_append_left l' hr))

/-- The maximum survives the trim step: for a nonempty list and positive
bound, the trimmed window has the same maximal contest number. -/
theorem latestStored_trim (N : Nat) (l : List ContestRecord)
    (hne : l ≠ []) (hN : 0 < N) :
    latestStoredNumber (sortAsc ((sortDesc l).take N)) = latestStoredNumber l := by
  have hperm : (sortAsc ((sortDesc l).take N)).Perm ((sortDesc l).take N) :=
    sortAsc_perm _
  rw [latestStored_of_perm hperm]
  have hdne : sortDesc l ≠ [] := by
    intro h
    exact hne ((sortDesc_perm l).symm.trans (h ▸ List.Perm.refl [])).eq_nil
  obtain ⟨a, t, ht⟩ := List.exists_cons_of_ne_nil hdne
  obtain ⟨M, rfl⟩ := Nat.exists_eq_succ_of_ne_zero (Nat.pos_iff_ne_zero.mp hN)
  have htake : (sortDesc l).take (M + 1) = a :: t.take M := by
    rw [ht]; rfl
  have hha : ∀ x ∈ sortDesc l, x.numero ≤ a.numero := by
    intro x hx
    rw [ht] at hx
    rcases List.mem_cons.mp hx with rfl | hm
    · exact Nat.le_refl _
    · have := List.rel_of_sorted_cons (ht ▸ sortDesc_sorted l) x hm
      exact this
  apply Nat.le_antisymm
  · apply latestStored_le
    intro r hr
    rw [htake] at hr
    have hrin : r ∈ sortDesc l := by
      rw [ht]
      rcases List.mem_cons.mp hr with rfl | hm
      · exact List.mem_cons_self _ _
      · exact List.mem_cons_of_mem a ((List.take_sublist M t).mem hm)
    calc r.numero ≤ a.numero := hha r hrin
      _ ≤ latestStoredNumber l :=
        le_latestStored ((sortDesc_perm l).mem_iff.mp (ht ▸ List.mem_cons_self a t))
  · apply latestStored_le
    intro r hr
    have hrd : r ∈ sortDesc l := (sortDesc_perm l).mem_iff.mpr hr
    calc r.numero ≤ a.numero := hha r hrd
      _ ≤ latestStoredNumber ((sortDesc l).take (M + 1)) := by
          rw [htake]
          exact le_latestStored (List.mem_cons_self a _)

/-! ## Facts about numero-faithful fetch results -/

theorem map_numero_filterMap_sublist
    {fetchGame : Option Nat → Option ContestRecord}
    (hwb : numeroFaithful fetchGame) (nums : List Nat) :
    List.Sublist ((nums.filterMap (fun n => fetchGame (some n))).map
      (fun c => c.numero)) nums := by
  induction nums with
  | nil => simp
  | cons n t ih =>
      cases h : fetchGame (some n) with
      | none =>
          simp only [List.filterMap_cons, h]
          exact ih.cons n
      | some r =>
          simp only [List.filterMap_cons, h, List.map_cons, hwb n r h]
          exact ih.cons₂ n

theorem nodupKeys_filterMap
    {fetchGame : Option Nat → Option ContestRecord}
    (hwb : numeroFaithful fetchGame) {nums : List Nat} (hnd : nums.Nodup) :
    nodupKeys (nums.filterMap (fun n => fetchGame (some n))) :=
  (map_numero_filterMap_sublist hwb nums).nodup hnd

theorem mem_filterMap_numero
    {fetchGame : Option Nat → Option ContestRecord}
    (hwb : numeroFaithful fetchGame) {nums : List Nat} {r : ContestRecord}
    (h : r ∈ nums.filterMap (fun n => fetchGame (some n))) : r.numero ∈ nums := by
  rcases List.mem_filterMap.mp h with ⟨n, hn, he⟩
  rw [hwb n r he]
  exact hn

/-- Merging records whose contest numbers sit strictly above the stored
maximum cannot create duplicates. -/
theorem nodupKeys_append_new {stored new : List ContestRecord}
    (hnd : nodupKeys stored) (hnew : nodupKeys new)
    (hhigh : ∀ r ∈ new, latestStoredNumber stored < r.numero) :
    nodupKeys (stored ++ new) := by
  unfold nodupKeys at hnd hnew ⊢
  rw [List.map_append, List.nodup_append]
  refine ⟨hnd, hnew, ?_⟩
  intro a ha hb
  rcases List.mem_map.mp ha with ⟨r, hr, rfl⟩
  rcases List.mem_map.mp hb with ⟨r', hr', he⟩
  have h1 : r.numero ≤ latestStoredNumber stored := le_latestStored hr
  have h2 : latestStoredNumber stored < r'.numero := hhigh r' hr'
  rw [he] at h2
  exact Nat.lt_irrefl _ (Nat.lt_of_lt_of_le h2 h1)

/-! ## The bootstrap countdown -/

/-- The bootstrap loop's index arithmetic produces exactly the countdown
`L, L-1, …, L-N+1` clipped to positive numbers. -/
theorem countdown_eq (L N : Nat) :
    (List.range N).filterMap
      (fun i => if 0 < L - i then some (L - i) else none)
      = specCountdown L N := by
  induction N with
  | zero => simp [specCountdown]
  | succ N ih =>
      have hsingle : List.filterMap
          (fun i => if 0 < L - i then some (L - i) else none) [N]
          = if 0 < L - N then [L - N] else [] := by
        simp only [List.filterMap_cons, List.filterMap_nil]
        by_cases h : 0 < L - N
        · rw [if_pos h, if_pos h]
        · rw [if_neg h, if_neg h]
      rw [List.range_succ, List.filterMap_append, ih, hsingle]
      rcases Nat.lt_or_ge N L with hc | hc
      · have hpos : 0 < L - N := Nat.sub_pos_of_lt hc
        rw [if_pos hpos]
        unfold specCountdown
        have hmin1 : min L (N + 1) = N + 1 := Nat.min_eq_right hc
        have hmin0 : min L N = N := Nat.min_eq_right (Nat.le_of_lt hc)
        rw [hmin1, hmin0]
        have hs1 : L + 1 - (N + 1) = L - N := by omega
        have hs2 : L - N + 1 = L + 1 - N := by omega
        rw [hs1, List.range'_succ, hs2, List.reverse_cons]
      · have hzero : L - N = 0 := Nat.sub_eq_zero_of_le hc
        rw [hzero, if_neg (Nat.lt_irrefl 0), List.append_nil]
        unfold specCountdown
        have hmin1 : min L (N + 1) = L := Nat.min_eq_left (Nat.le_succ_of_le hc)
        have hmin0 : min L N = L := Nat.min_eq_left hc
        rw [hmin1, hmin0]

theorem specCountdown_nodup (L N : Nat) : (specCountdown L N).Nodup := by
  unfold specCountdown
  exact List.nodup_reverse.mpr (List.nodup_range' _ _)

theorem mem_specCountdown {L N n : Nat} (h : n ∈ specCountdown L N) :
    0 < n ∧ n ≤ L := by
  unfold specCountdown at h
  rw [List.mem_reverse, List.mem_range'_1] at h
  omega

/-! ## Pointwise views of the two document loops -/

theorem initStep_apply (f : String → Option Nat → Option ContestRecord)
    (d : StoreDoc) (g y : String) :
    initStep f d g y = if y = g then initGameValue f g (d y) else d y := by
  unfold initStep initGameValue
  cases initGame CONTESTS_TO_STORE (f g) with
  | some w => simp
  | none =>
      by_cases hy : y = g
      · subst hy; simp
      · simp [hy]

theorem updateStep_apply (f : String → Option Nat → Option ContestRecord)
    (d : StoreDoc) (g y : String) :
    updateStep f d g y
      = if y = g then updateGameValue CONTESTS_TO_STORE (f g) (d g) else d y := by
  unfold updateStep updateGameValue
  cases (updateGame CONTESTS_TO_STORE (f g) ((d g).getD [])).1 with
  | some w => simp
  | none =>
      by_cases hy : y = g
      · subst hy; simp
      · simp [hy]

theorem initGames_apply (f : String → Option Nat → Option ContestRecord)
    (gs : List String) (hnd : gs.Nodup) (db : StoreDoc) (x : String) :
    initGames f gs db x
      = if x ∈ gs then initGameValue f x (db x) else db x := by
  induction gs generalizing db with
  | nil => simp [initGames]
  | cons g t ih =>
      have hg : g ∉ t := (List.nodup_cons.mp hnd).1
      have hndt : t.Nodup := (List.nodup_cons.mp hnd).2
      have hfold : initGames f (g :: t) db = initGames f t (initStep f db g) := rfl
      rw [hfold, ih hndt]
      by_cases hx : x ∈ t
      · have hxg : x ≠ g := fun he => hg (he ▸ hx)
        rw [if_pos hx, if_pos (List.mem_cons_of_mem g hx),
          initStep_apply f db g x, if_neg hxg]
      · rw [if_neg hx, initStep_apply f db g x]
        by_cases hxg : x = g
        · subst hxg
          rw [if_pos rfl, if_pos (List.mem_cons_self x t)]
        · rw [if_neg hxg,
            if_neg (fun hm => (List.mem_cons.mp hm).elim hxg hx)]

theorem updateGames_apply (f : String → Option Nat → Option ContestRecord)
    (gs : List String) (hnd : gs.Nodup) (db : StoreDoc) (x : String) :
    updateGames f gs db x
      = if x ∈ gs then updateGameValue CONTESTS_TO_STORE (f x) (db x)
        else db x := by
  induction gs generalizing db with
  | nil => simp [updateGames]
  | cons g t ih =>
      have hg : g ∉ t := (List.nodup_cons.mp hnd).1
      have hndt : t.Nodup := (List.nodup_cons.mp hnd).2
      have hfold : updateGames f (g :: t) db = updateGames f t (updateStep f db g) := rfl
      rw [hfold, ih hndt]
      by_cases hx : x ∈ t
      · have hxg : x ≠ g := fun he => hg (he ▸ hx)
        rw [if_pos hx, if_pos (List.mem_cons_of_mem g hx),
          updateStep_apply f db g x, if_neg hxg]
      · rw [if_neg hx, updateStep_apply f db g x]
        by_cases hxg : x = g
        · subst hxg
          rw [if_pos rfl, if_pos (List.mem_cons_self x t)]
        · rw [if_neg hxg,
            if_neg (fun hm => (List.mem_cons.mp hm).elim hxg hx)]

theorem lotteryGames_nodup : LOTTERY_GAMES.Nodup := by decide

theorem initDatabase_apply (f : String → Option Nat → Option ContestRecord)
    (x : String) :
    initDatabase f x
      = if x ∈ LOTTERY_GAMES then initGame CONTESTS_TO_STORE (f x) else none := by
  unfold initDatabase
  rw [initGames_apply f LOTTERY_GAMES lotteryGames_nodup (fun _ => none) x]
  unfold initGameValue
  cases initGame CONTESTS_TO_STORE (f x) <;> simp

theorem updateDatabase_apply (f : String → Option Nat → Option ContestRecord)
    (db : StoreDoc) (x : String) :
    updateDatabase f db x
      = if x ∈ LOTTERY_GAMES then updateGameValue CONTESTS_TO_STORE (f x) (db x)
        else db x := by
  unfold updateDatabase
  exact updateGames_apply f LOTTERY_GAMES lotteryGames_nodup db x

/-! ## Case analysis of one per-game update iteration -/

theorem updateGame_none (N : Nat)
    (fetchGame : Option Nat → Option ContestRecord)
    (stored : List ContestRecord) (h : fetchGame none = none) :
    updateGame N fetchGame stored = (none, []) := by
  unfold updateGame
  rw [h]

theorem updateGame_zero (N : Nat)
    (fetchGame : Option Nat → Option ContestRecord)
    (stored : List ContestRecord) (lc : ContestRecord)
    (h : fetchGame none = some lc) (h0 : lc.numero = 0) :
    updateGame N fetchGame stored = (none, []) := by
  unfold updateGame
  rw [h]
  simp only [h0, if_pos]

theorem updateGame_cases (N : Nat)
    (fetchGame : Option Nat → Option ContestRecord)
    (stored : List ContestRecord) (lc : ContestRecord)
    (hlatest : fetchGame none = some lc) (h0 : lc.numero ≠ 0) :
    updateGame N fetchGame stored
      = if latestStoredNumber stored < lc.numero then
          (if 0 < (specNewRecords fetchGame (latestStoredNumber stored)
                lc.numero).length then
            (some (sortAsc ((sortDesc (stored
                ++ specNewRecords fetchGame (latestStoredNumber stored)
                  lc.numero)).take N)),
             List.range' (latestStoredNumber stored + 1)
               (lc.numero - latestStoredNumber stored))
          else
            (none, List.range' (latestStoredNumber stored + 1)
              (lc.numero - latestStoredNumber stored)))
        else (none, []) := by
  unfold updateGame specNewRecords
  rw [hlatest]
  simp only [if_neg h0]

/-! ## Properties of the merge and trim step -/

theorem trim_length_le (N : Nat) (l : List ContestRecord) :
    (sortAsc ((sortDesc l).take N)).length ≤ N := by
  rw [(sortAsc_perm _).length_eq]
  exact List.length_take_le N _

theorem trim_nodupKeys (N : Nat) (l : List ContestRecord) (h : nodupKeys l) :
    nodupKeys (sortAsc ((sortDesc l).take N)) :=
  nodupKeys_of_perm (sortAsc_perm _).symm
    (nodupKeys_of_sublist (List.take_sublist N _)
      (nodupKeys_of_perm (sortDesc_perm l).symm h))

theorem specNewRecords_nodupKeys
    {fetchGame : Option Nat → Option ContestRecord}
    (hwb : numeroFaithful fetchGame) (lo hi : Nat) :
    nodupKeys (specNewRecords fetchGame lo hi) := by
  unfold specNewRecords
  exact nodupKeys_filterMap hwb (List.nodup_range' _ _)

theorem specNewRecords_bounds
    {fetchGame : Option Nat → Option ContestRecord}
    (hwb : numeroFaithful fetchGame) {lo hi : Nat} {r : ContestRecord}
    (h : r ∈ specNewRecords fetchGame lo hi) :
    lo < r.numero ∧ r.numero ≤ hi := by
  unfold specNewRecords at h
  have := List.mem_range'_1.mp (mem_filterMap_numero hwb h)
  omega

theorem nodupKeys_merge
    {fetchGame : Option Nat → Option ContestRecord}
    (hwb : numeroFaithful fetchGame) {stored : List ContestRecord}
    (hnd : nodupKeys stored) (hi : Nat) :
    nodupKeys (stored
      ++ specNewRecords fetchGame (latestStoredNumber stored) hi) :=
  nodupKeys_append_new hnd
    (specNewRecords_nodupKeys hwb (latestStoredNumber stored) hi)
    (fun _r hr => (specNewRecords_bounds hwb hr).1)

/-! ## Claim theorems: incremental synchronization -/

/-- C1: in one incremental tick with readable store, a game whose latest
upstream contest number does not exceed the stored maximum is left
untouched, with no per-contest fetch issued; otherwise every contest
number in `(latestStored, latestApi]` is fetched and the resulting
window is the stored records merged with the non-absent fetch results,
trimmed to the `N` highest contest numbers and sorted ascending. -/
theorem updateGame_tick_spec (N : Nat)
    (fetchGame : Option Nat → Option ContestRecord)
    (stored : List ContestRecord) (lc : ContestRecord)
    (hwb : numeroFaithful fetchGame)
    (hsor : List.Sorted leNum stored)
    (hnd : nodupKeys stored)
    (hlen : stored.length ≤ N)
    (hlatest : fetchGame none = some lc) (h0 : lc.numero ≠ 0) :
    (lc.numero ≤ latestStoredNumber stored →
      updateGame N fetchGame stored = (none, [])) ∧
    (latestStoredNumber stored < lc.numero →
      (updateGame N fetchGame stored).2
        = List.range' (latestStoredNumber stored + 1)
            (lc.numero - latestStoredNumber stored) ∧
      windowAfter (updateGame N fetchGame stored).1 stored
        = specTopN N (stored
            ++ specNewRecords fetchGame (latestStoredNumber stored)
                lc.numero)) := by
  rw [updateGame_cases N fetchGame stored lc hlatest h0]
  constructor
  · intro hle
    rw [if_neg (Nat.not_lt.mpr hle)]
  · intro hlt
    rw [if_pos hlt]
    by_cases hne :
        0 < (specNewRecords fetchGame (latestStoredNumber stored)
          lc.numero).length
    · rw [if_pos hne]
      refine ⟨rfl, ?_⟩
      unfold windowAfter
      rw [Option.getD_some]
      exact trim_eq_specTopN N _ (nodupKeys_merge hwb hnd lc.numero)
    · rw [if_neg hne]
      refine ⟨rfl, ?_⟩
      have hnil : specNewRecords fetchGame (latestStoredNumber stored)
          lc.numero = [] :=
        List.length_eq_zero.mp (Nat.eq_zero_of_not_pos hne)
      unfold windowAfter specTopN
      rw [Option.getD_none, hnil, List.append_nil, sortAsc_eq_self hsor,
        Nat.sub_eq_zero_of_le hlen, List.drop_zero]

/-- Oracle for scenario B: upstream latest is contest 12, the
per-contest fetch of 12 succeeds and every other one is absent. -/
def fetchScenarioB : Option Nat → Option ContestRecord
  | none => some ⟨12, 0⟩
  | some n => if n = 12 then some ⟨12, 0⟩ else none

/-- Stored window for scenarios B: contests 6 to 10. -/
def storedScenarioB : List ContestRecord :=
  [⟨6, 0⟩, ⟨7, 0⟩, ⟨8, 0⟩, ⟨9, 0⟩, ⟨10, 0⟩]

instance (l : List ContestRecord) : Decidable (nodupKeys l) := by
  unfold nodupKeys
  infer_instance

theorem fetchScenarioB_faithful : numeroFaithful fetchScenarioB := by
  intro n r h
  by_cases hn : n = 12
  · subst hn
    simp only [fetchScenarioB, if_pos rfl] at h
    cases h
    rfl
  · simp only [fetchScenarioB, if_neg hn] at h
    cases h

theorem updateGame_tick_spec_witness :
    (windowAfter (updateGame 5 fetchScenarioB storedScenarioB).1 storedScenarioB
      = specTopN 5 (storedScenarioB
          ++ specNewRecords fetchScenarioB (latestStoredNumber storedScenarioB)
              12))
    ∧ (updateGame 5 fetchScenarioB storedScenarioB).1
      = some [⟨7, 0⟩, ⟨8, 0⟩, ⟨9, 0⟩, ⟨10, 0⟩, ⟨12, 0⟩] :=
  ⟨((updateGame_tick_spec 5 fetchScenarioB storedScenarioB ⟨12, 0⟩
      fetchScenarioB_faithful (by decide) (by decide) (by decide)
      rfl (by decide)).2 (by decide)).2,
    by decide⟩

/-! ## Inversion of successful iterations -/

theorem initGame_skip (N : Nat)
    (fetchGame : Option Nat → Option ContestRecord)
    (h : fetchGame none = none) : initGame N fetchGame = none := by
  unfold initGame
  rw [h]

theorem initGame_eq (N : Nat)
    (fetchGame : Option Nat → Option ContestRecord) (lc : ContestRecord)
    (hl : fetchGame none = some lc) :
    initGame N fetchGame
      = if lc.numero = 0 then none
        else some (sortAsc (((List.range N).filterMap
          (fun i => if 0 < lc.numero - i then some (lc.numero - i) else none)).filterMap
            (fun n => fetchGame (some n)))) := by
  unfold initGame
  rw [hl]

theorem initGame_some {N : Nat} {fetchGame : Option Nat → Option ContestRecord}
    {w : List ContestRecord} (h : initGame N fetchGame = some w) :
    ∃ lc, fetchGame none = some lc ∧ lc.numero ≠ 0 ∧
      w = sortAsc (((List.range N).filterMap
        (fun i => if 0 < lc.numero - i then some (lc.numero - i) else none)).filterMap
          (fun n => fetchGame (some n))) := by
  cases hl : fetchGame none with
  | none => rw [initGame_skip N fetchGame hl] at h; cases h
  | some lc =>
      rw [initGame_eq N fetchGame lc hl] at h
      by_cases h0 : lc.numero = 0
      · rw [if_pos h0] at h
        cases h
      · rw [if_neg h0] at h
        exact ⟨lc, rfl, h0, (Option.some.inj h).symm⟩

theorem updateGame_some {N : Nat}
    {fetchGame : Option Nat → Option ContestRecord}
    {stored w : List ContestRecord}
    (h : (updateGame N fetchGame stored).1 = some w) :
    ∃ lc, fetchGame none = some lc ∧ lc.numero ≠ 0 ∧
      latestStoredNumber stored < lc.numero ∧
      0 < (specNewRecords fetchGame (latestStoredNumber stored)
        lc.numero).length ∧
      w = sortAsc ((sortDesc (stored
        ++ specNewRecords fetchGame (latestStoredNumber stored)
            lc.numero)).take N) := by
  cases hl : fetchGame none with
  | none => rw [updateGame_none N fetchGame stored hl] at h; cases h
  | some lc =>
      by_cases h0 : lc.numero = 0
      · rw [updateGame_zero N fetchGame stored lc hl h0] at h
        cases h
      · rw [updateGame_cases N fetchGame stored lc hl h0] at h
        by_cases hlt : latestStoredNumber stored < lc.numero
        · rw [if_pos hlt] at h
          by_cases hne : 0 < (specNewRecords fetchGame
              (latestStoredNumber stored) lc.numero).length
          · rw [if_pos hne] at h
            exact ⟨lc, rfl, h0, hlt, hne, (Option.some.inj h).symm⟩
          · rw [if_neg hne] at h
            cases h
        · rw [if_neg hlt] at h
          cases h

/-! ## Claim theorems: bootstrap -/

/-- C2: for a game whose latest-contest fetch yields contest number `L`,
the bootstrap stores exactly the non-absent results of fetching
`L, L-1, …, L-N+1` clipped positive, sorted ascending; a game whose
latest fetch is absent is skipped (no key), and each supported game's
entry depends only on that game's own fetches. -/
theorem initGame_bootstrap_spec (N : Nat)
    (fetchGame : Option Nat → Option ContestRecord)
    (f : String → Option Nat → Option ContestRecord) :
    (fetchGame none = none → initGame N fetchGame = none) ∧
    (∀ lc, fetchGame none = some lc → lc.numero ≠ 0 →
      initGame N fetchGame
        = some (sortAsc ((specCountdown lc.numero N).filterMap
            (fun n => fetchGame (some n))))) ∧
    (∀ g, g ∈ LOTTERY_GAMES →
      initDatabase f g = initGame CONTESTS_TO_STORE (f g)) := by
  refine ⟨?_, ?_, ?_⟩
  · intro h
    exact initGame_skip N fetchGame h
  · intro lc hl h0
    rw [initGame_eq N fetchGame lc hl, if_neg h0, countdown_eq]
  · intro g hg
    rw [initDatabase_apply f g, if_pos hg]

/-- Oracle for scenario A: upstream latest is contest 10 and every
per-contest fetch succeeds. -/
def fetchScenarioA : Option Nat → Option ContestRecord
  | none => some ⟨10, 0⟩
  | some n => some ⟨n, 0⟩

theorem fetchScenarioA_faithful : numeroFaithful fetchScenarioA := by
  intro n r h
  cases h
  rfl

theorem initGame_bootstrap_spec_witness :
    initGame 5 fetchScenarioA
      = some (sortAsc ((specCountdown 10 5).filterMap
          (fun n => fetchScenarioA (some n))))
    ∧ initGame 5 fetchScenarioA
      = some [⟨6, 0⟩, ⟨7, 0⟩, ⟨8, 0⟩, ⟨9, 0⟩, ⟨10, 0⟩] :=
  ⟨(initGame_bootstrap_spec 5 fetchScenarioA
      (fun _ _ => none)).2.1 ⟨10, 0⟩ rfl (by decide),
    by decide⟩

/-! ## Claim theorems: window invariants -/

set_option maxRecDepth 100000 in
/-- C3: every window produced by the bootstrap, and every window present
after an incremental pass over a document whose windows were within the
bound, holds at most `CONTESTS_TO_STORE` records. -/
theorem windows_bounded :
    (∀ (f : String → Option Nat → Option ContestRecord) (g : String)
        (w : List ContestRecord), initDatabase f g = some w →
        w.length ≤ CONTESTS_TO_STORE) ∧
    (∀ (f : String → Option Nat → Option ContestRecord) (db : StoreDoc),
        (∀ g w, db g = some w → w.length ≤ CONTESTS_TO_STORE) →
        ∀ g w, updateDatabase f db g = some w →
        w.length ≤ CONTESTS_TO_STORE) := by
  constructor
  · intro f g w h
    rw [initDatabase_apply f g] at h
    by_cases hg : g ∈ LOTTERY_GAMES
    · rw [if_pos hg] at h
      obtain ⟨lc, hl, h0, rfl⟩ := initGame_some h
      rw [(sortAsc_perm _).length_eq]
      refine Nat.le_trans (List.length_filterMap_le _ _) ?_
      refine Nat.le_trans (List.length_filterMap_le _ _) ?_
      rw [List.length_range]
    · rw [if_neg hg] at h
      cases h
  · intro f db hdb g w h
    rw [updateDatabase_apply f db g] at h
    by_cases hg : g ∈ LOTTERY_GAMES
    · rw [if_pos hg] at h
      cases hu : (updateGame CONTESTS_TO_STORE (f g) ((db g).getD [])).1 with
      | some w' =>
          simp only [updateGameValue, hu] at h
          obtain ⟨lc, hl, h0, hlt, hne, hw⟩ := updateGame_some hu
          obtain rfl : w' = w := Option.some.inj h
          rw [hw]
          exact trim_length_le _ _
      | none =>
          simp only [updateGameValue, hu] at h
          exact hdb g w h
    · rw [if_neg hg] at h
      exact hdb g w h

/-- Oracle family giving every game upstream latest contest 10 with all
per-contest fetches succeeding. -/
def fetchAllGames : String → Option Nat → Option ContestRecord :=
  fun _ => fetchScenarioA

theorem fetchAllGames_faithful : numeroFaithfulAll fetchAllGames :=
  fun _ => fetchScenarioA_faithful

/-- The document with no keys at all. -/
def emptyDoc : StoreDoc := fun _ => none

/-- Contests 1 to 10 ascending. -/
def windowTen : List ContestRecord :=
  [⟨1, 0⟩, ⟨2, 0⟩, ⟨3, 0⟩, ⟨4, 0⟩, ⟨5, 0⟩,
   ⟨6, 0⟩, ⟨7, 0⟩, ⟨8, 0⟩, ⟨9, 0⟩, ⟨10, 0⟩]

set_option maxRecDepth 100000 in
theorem windows_bounded_witness :
    windowTen.length ≤ CONTESTS_TO_STORE
    ∧ windowTen.length ≤ CONTESTS_TO_STORE :=
  ⟨windows_bounded.1 fetchAllGames "megasena" windowTen (by decide),
   windows_bounded.2 fetchAllGames emptyDoc (fun _ _ h => nomatch h)
     "megasena" windowTen (by decide)⟩

set_option maxRecDepth 100000 in
/-- C4: every window produced by the bootstrap has pairwise-distinct
contest numbers, and an incremental pass preserves this, the newly
merged contest numbers being drawn strictly above the stored maximum. -/
theorem windows_nodup :
    (∀ (f : String → Option Nat → Option ContestRecord),
        numeroFaithfulAll f →
        ∀ g w, initDatabase f g = some w → nodupKeys w) ∧
    (∀ (f : String → Option Nat → Option ContestRecord) (db : StoreDoc),
        numeroFaithfulAll f →
        (∀ g w, db g = some w → nodupKeys w) →
        ∀ g w, updateDatabase f db g = some w → nodupKeys w) := by
  constructor
  · intro f hwb g w h
    rw [initDatabase_apply f g] at h
    by_cases hg : g ∈ LOTTERY_GAMES
    · rw [if_pos hg] at h
      obtain ⟨lc, hl, h0, rfl⟩ := initGame_some h
      rw [countdown_eq]
      exact nodupKeys_of_perm (sortAsc_perm _).symm
        (nodupKeys_filterMap (hwb g) (specCountdown_nodup _ _))
    · rw [if_neg hg] at h
      cases h
  · intro f db hwb hdb g w h
    rw [updateDatabase_apply f db g] at h
    by_cases hg : g ∈ LOTTERY_GAMES
    · rw [if_pos hg] at h
      cases hu : (updateGame CONTESTS_TO_STORE (f g) ((db g).getD [])).1 with
      | some w' =>
          simp only [updateGameValue, hu] at h
          obtain ⟨lc, hl, h0, hlt, hne, hw⟩ := updateGame_some hu
          have hstored : nodupKeys ((db g).getD []) := by
            cases hdbg : db g with
            | none => simp [hdbg, nodupKeys]
            | some s => simpa [hdbg] using hdb g s hdbg
          obtain rfl : w' = w := Option.some.inj h
          rw [hw]
          exact trim_nodupKeys _ _ (nodupKeys_merge (hwb g) hstored lc.numero)
      | none =>
          simp only [updateGameValue, hu] at h
          exact hdb g w h
    · rw [if_neg hg] at h
      exact hdb g w h

set_option maxRecDepth 100000 in
theorem windows_nodup_witness :
    nodupKeys windowTen ∧ nodupKeys windowTen :=
  ⟨windows_nodup.1 fetchAllGames fetchAllGames_faithful
     "megasena" windowTen (by decide),
   windows_nodup.2 fetchAllGames emptyDoc fetchAllGames_faithful
     (fun _ _ h => nomatch h) "megasena" windowTen (by decide)⟩

/-! ## Claim theorems: read failure aborts the tick -/

/-- C5: when the durable document cannot be read or parsed at the start
of an incremental run, the run logs the error, performs no write, and
leaves the durable file exactly as it was. -/
theorem updateTick_read_failure {σ : Type}
    (f : String → Option Nat → Option ContestRecord)
    (read : σ → Option StoreDoc) (writeFile : StoreDoc → σ) (s : σ)
    (h : read s = none) :
    updateTickRun f read writeFile s = ⟨s, [], true⟩ := by
  unfold updateTickRun
  rw [h]

theorem updateTick_read_failure_witness :
    updateTickRun (fun _ _ => none) (fun x => x) some (none : Option StoreDoc)
      = ⟨none, [], true⟩ :=
  updateTick_read_failure (fun _ _ => none) (fun x => x) some none rfl

/-! ## Claim theorems: no downgrade -/

/-- C7: a successful per-game pass keeps every previously stored record
unless the resulting window already consists of `N` records with
strictly higher contest numbers; previously stored contest numbers are
never dropped by a failed re-fetch, only by the size-bound trim. -/
theorem updateGame_no_downgrade (N : Nat)
    (fetchGame : Option Nat → Option ContestRecord)
    (stored w : List ContestRecord) (r : ContestRecord)
    (hwb : numeroFaithful fetchGame) (hnd : nodupKeys stored)
    (hup : (updateGame N fetchGame stored).1 = some w) (hr : r ∈ stored) :
    r ∈ w ∨ N ≤ w.countP (fun x => decide (r.numero < x.numero)) := by
  obtain ⟨lc, hl, h0, hlt, hne, hw⟩ := updateGame_some hup
  subst hw
  have hC : nodupKeys (stored
      ++ specNewRecords fetchGame (latestStoredNumber stored) lc.numero) :=
    nodupKeys_merge hwb hnd lc.numero
  by_cases hm : r ∈ (sortDesc (stored
      ++ specNewRecords fetchGame (latestStoredNumber stored)
        lc.numero)).take N
  · exact Or.inl ((sortAsc_perm _).mem_iff.mpr hm)
  · right
    have hrC : r ∈ sortDesc (stored
        ++ specNewRecords fetchGame (latestStoredNumber stored)
          lc.numero) :=
      (sortDesc_perm _).mem_iff.mpr (List.mem_append_left _ hr)
    have hrD : r ∈ (sortDesc (stored
        ++ specNewRecords fetchGame (latestStoredNumber stored)
          lc.numero)).drop N := by
      rw [← List.take_append_drop N (sortDesc (stored
        ++ specNewRecords fetchGame (latestStoredNumber stored)
          lc.numero))] at hrC
      rcases List.mem_append.mp hrC with hT | hD
      · exact absurd hT hm
      · exact hD
    have hsorted : (sortDesc (stored
        ++ specNewRecords fetchGame (latestStoredNumber stored)
          lc.numero)).Pairwise gtNum :=
      sorted_gt_of_ge_nodup (sortDesc_sorted _)
        (nodupKeys_of_perm (sortDesc_perm _).symm hC)
    have hgt : ∀ x ∈ (sortDesc (stored
        ++ specNewRecords fetchGame (latestStoredNumber stored)
          lc.numero)).take N, r.numero < x.numero := by
      intro x hx
      exact hsorted.rel_of_mem_take_of_mem_drop hx hrD
    have hcount : ((sortDesc (stored
        ++ specNewRecords fetchGame (latestStoredNumber stored)
          lc.numero)).take N).countP
          (fun x => decide (r.numero < x.numero))
        = ((sortDesc (stored
          ++ specNewRecords fetchGame (latestStoredNumber stored)
            lc.numero)).take N).length :=
      List.countP_eq_length.mpr (fun x hx => decide_eq_true (hgt x hx))
    have hlenN : ((sortDesc (stored
        ++ specNewRecords fetchGame (latestStoredNumber stored)
          lc.numero)).take N).length = N := by
      rw [List.length_take]
      have : N < (sortDesc (stored
          ++ specNewRecords fetchGame (latestStoredNumber stored)
            lc.numero)).length := by
        by_contra hle
        rw [List.drop_eq_nil_of_le (Nat.le_of_not_lt hle)] at hrD
        cases hrD
      omega
    rw [(sortAsc_perm _).countP_eq, hcount, hlenN]

theorem updateGame_no_downgrade_witness :
    (⟨7, 0⟩ : ContestRecord)
        ∈ ([⟨7, 0⟩, ⟨8, 0⟩, ⟨9, 0⟩, ⟨10, 0⟩, ⟨12, 0⟩] : List ContestRecord)
      ∨ 5 ≤ ([⟨7, 0⟩, ⟨8, 0⟩, ⟨9, 0⟩, ⟨10, 0⟩, ⟨12, 0⟩] :
          List ContestRecord).countP
            (fun x => decide ((⟨7, 0⟩ : ContestRecord).numero < x.numero)) :=
  updateGame_no_downgrade 5 fetchScenarioB storedScenarioB
    [⟨7, 0⟩, ⟨8, 0⟩, ⟨9, 0⟩, ⟨10, 0⟩, ⟨12, 0⟩] ⟨7, 0⟩
    fetchScenarioB_faithful (by decide) (by decide) (by decide)

/-! ## Claim theorems: idempotence of the incremental pass -/

theorem updateGameValue_idem (N : Nat)
    (fetchGame : Option Nat → Option ContestRecord)
    (hN : 0 < N) (hwb : numeroFaithful fetchGame)
    (v : Option (List ContestRecord)) :
    updateGameValue N fetchGame (updateGameValue N fetchGame v)
      = updateGameValue N fetchGame v := by
  cases hu : (updateGame N fetchGame (v.getD [])).1 with
  | none =>
      have h1 : updateGameValue N fetchGame v = v := by
        simp only [updateGameValue, hu]
      rw [h1, h1]
  | some w =>
      have h1 : updateGameValue N fetchGame v = some w := by
        simp only [updateGameValue, hu]
      rw [h1]
      obtain ⟨lc, hl, h0, hlt, hne, hw⟩ := updateGame_some hu
      have hCne : (v.getD []
          ++ specNewRecords fetchGame (latestStoredNumber (v.getD []))
            lc.numero) ≠ [] := by
        intro hnil
        have hlen := congrArg List.length hnil
        rw [List.length_append] at hlen
        simp only [List.length_nil] at hlen
        omega
      have hmax : latestStoredNumber w
          = latestStoredNumber (v.getD []
            ++ specNewRecords fetchGame (latestStoredNumber (v.getD []))
              lc.numero) := by
        rw [hw]
        exact latestStored_trim N _ hCne hN
      have hnone : (updateGame N fetchGame w).1 = none := by
        rw [updateGame_cases N fetchGame w lc hl h0]
        by_cases hlt2 : latestStoredNumber w < lc.numero
        · rw [if_pos hlt2]
          have hempty : specNewRecords fetchGame (latestStoredNumber w)
              lc.numero = [] := by
            unfold specNewRecords
            apply List.filterMap_eq_nil_iff.mpr
            intro n hn
            have hnb := List.mem_range'_1.mp hn
            cases hfg : fetchGame (some n) with
            | none => rfl
            | some r =>
                exfalso
                have hrn : r.numero = n := hwb n r hfg
                have hlsle : latestStoredNumber (v.getD [])
                    ≤ latestStoredNumber w := by
                  rw [hmax]
                  exact latestStored_append_left _ _
                have hnmem : n ∈ List.range'
                    (latestStoredNumber (v.getD []) + 1)
                    (lc.numero - latestStoredNumber (v.getD [])) := by
                  apply List.mem_range'_1.mpr
                  omega
                have hrmem : r ∈ specNewRecords fetchGame
                    (latestStoredNumber (v.getD [])) lc.numero := by
                  unfold specNewRecords
                  exact List.mem_filterMap.mpr ⟨n, hnmem, hfg⟩
                have hrle : r.numero ≤ latestStoredNumber w := by
                  rw [hmax]
                  exact le_latestStored (List.mem_append_right _ hrmem)
                omega
          rw [hempty]
          simp only [List.length_nil, Nat.lt_irrefl, if_false]
        · rw [if_neg hlt2]
      simp only [updateGameValue, Option.getD_some, hnone]

/-- C6: with a fixed upstream (no new contests between the runs), running
the incremental pass twice in immediate succession produces the same
document as running it once, so the rewritten store content is
byte-for-byte identical. -/
theorem updateDatabase_idempotent
    (f : String → Option Nat → Option ContestRecord) (db : StoreDoc)
    (hwb : numeroFaithfulAll f) :
    updateDatabase f (updateDatabase f db) = updateDatabase f db := by
  funext x
  rw [updateDatabase_apply f (updateDatabase f db) x,
    updateDatabase_apply f db x]
  by_cases hx : x ∈ LOTTERY_GAMES
  · rw [if_pos hx, if_pos hx]
    exact updateGameValue_idem CONTESTS_TO_STORE (f x) (by decide)
      (hwb x) (db x)
  · rw [if_neg hx, if_neg hx]

theorem updateDatabase_idempotent_witness :
    updateDatabase fetchAllGames (updateDatabase fetchAllGames emptyDoc)
      = updateDatabase fetchAllGames emptyDoc :=
  updateDatabase_idempotent fetchAllGames emptyDoc fetchAllGames_faithful

/-! ## Claim theorems: the fetcher -/

/-- C8 counterexample: a 2xx response carrying the zero-contest sentinel
is turned into Absent without any diagnostic being logged, refuting the
claim that every Absent case logs a diagnostic. -/
theorem fetchContestData_log_counterexample :
    ¬ ((fetchContestData (UpstreamBehavior.response 200 ⟨0, 0⟩)).1 = none →
       (fetchContestData (UpstreamBehavior.response 200 ⟨0, 0⟩)).2 = true) := by
  decide

/-- C8 (amended): fetch yields Absent exactly on transport failure,
non-2xx status, or a zero contest number, always recovering locally;
it logs a diagnostic in the transport-failure and non-2xx cases but not
for the zero-contest sentinel, and otherwise returns the parsed
record. -/
theorem fetchContestData_spec (status : Nat) (data : ContestRecord) :
    fetchContestData UpstreamBehavior.failure = (none, true)
    ∧ (responseOk status = false →
        fetchContestData (UpstreamBehavior.response status data)
          = (none, true))
    ∧ (responseOk status = true → data.numero = 0 →
        fetchContestData (UpstreamBehavior.response status data)
          = (none, false))
    ∧ (responseOk status = true → data.numero ≠ 0 →
        fetchContestData (UpstreamBehavior.response status data)
          = (some data, false)) := by
  refine ⟨rfl, ?_, ?_, ?_⟩
  · intro h
    simp [fetchContestData, h]
  · intro h h0
    simp [fetchContestData, h, h0]
  · intro h h0
    simp [fetchContestData, h, h0]

theorem fetchContestData_spec_witness :
    fetchContestData (UpstreamBehavior.response 404 ⟨1, 0⟩) = (none, true)
    ∧ fetchContestData (UpstreamBehavior.response 200 ⟨0, 0⟩) = (none, false)
    ∧ fetchContestData (UpstreamBehavior.response 200 ⟨5, 1⟩)
        = (some ⟨5, 1⟩, false) :=
  ⟨(fetchContestData_spec 404 ⟨1, 0⟩).2.1 (by decide),
   (fetchContestData_spec 200 ⟨0, 0⟩).2.2.1 (by decide) rfl,
   (fetchContestData_spec 200 ⟨5, 1⟩).2.2.2 (by decide) (by decide)⟩

/-! ## Claim theorems: the query route -/

/-- C9: an unsupported game name yields a 404 NotFound result without the
store being read, regardless of the store; a supported game with a
readable store yields the stored window sorted descending by contest
number; a supported game with an unreadable store yields a 500
failure. -/
theorem getGame_route_spec (gameName : String) (db : StoreDoc) :
    (gameName ∉ LOTTERY_GAMES → ∀ store,
      getGame gameName store = (QueryResponse.notFound, false)
      ∧ routeStatus (getGame gameName store).1 = 404) ∧
    (gameName ∈ LOTTERY_GAMES →
      getGame gameName (some db)
        = (QueryResponse.ok (sortDesc ((db gameName).getD [])), true)
      ∧ List.Sorted geNum (sortDesc ((db gameName).getD []))
      ∧ (sortDesc ((db gameName).getD [])).Perm ((db gameName).getD [])
      ∧ routeStatus (getGame gameName (some db)).1 = 200) ∧
    (gameName ∈ LOTTERY_GAMES →
      getGame gameName none = (QueryResponse.storeError, true)
      ∧ routeStatus (getGame gameName none).1 = 500) := by
  refine ⟨?_, ?_, ?_⟩
  · intro hg store
    have he : getGame gameName store = (QueryResponse.notFound, false) := by
      unfold getGame
      rw [if_neg hg]
    exact ⟨he, by rw [he]; rfl⟩
  · intro hg
    have he : getGame gameName (some db)
        = (QueryResponse.ok (sortDesc ((db gameName).getD [])), true) := by
      unfold getGame
      rw [if_pos hg]
    exact ⟨he, sortDesc_sorted _, sortDesc_perm _, by rw [he]; rfl⟩
  · intro hg
    have he : getGame gameName none = (QueryResponse.storeError, true) := by
      unfold getGame
      rw [if_pos hg]
    exact ⟨he, by rw [he]; rfl⟩

theorem getGame_route_spec_witness :
    getGame "jogodobicho" none = (QueryResponse.notFound, false)
    ∧ getGame "megasena" (some emptyDoc)
        = (QueryResponse.ok (sortDesc ((emptyDoc "megasena").getD [])), true)
    ∧ getGame "megasena" none = (QueryResponse.storeError, true) :=
  ⟨((getGame_route_spec "jogodobicho" emptyDoc).1 (by decide) none).1,
   ((getGame_route_spec "megasena" emptyDoc).2.1 (by decide)).1,
   ((getGame_route_spec "megasena" emptyDoc).2.2 (by decide)).1⟩

/-- C10: a supported game whose key is absent from a readable document,
or whose stored window is empty, yields a 200 response with an empty
array rather than a NotFound failure. -/
theorem getGame_empty_window (gameName : String) (db : StoreDoc)
    (hg : gameName ∈ LOTTERY_GAMES) (he : (db gameName).getD [] = []) :
    getGame gameName (some db) = (QueryResponse.ok [], true)
    ∧ routeStatus (getGame gameName (some db)).1 = 200 := by
  have hx : getGame gameName (some db)
      = (QueryResponse.ok (sortDesc ((db gameName).getD [])), true) := by
    unfold getGame
    rw [if_pos hg]
  have h : getGame gameName (some db) = (QueryResponse.ok [], true) := by
    rw [hx, he]
    rfl
  exact ⟨h, by rw [h]; rfl⟩

theorem getGame_empty_window_witness :
    getGame "quina" (some emptyDoc) = (QueryResponse.ok [], true)
    ∧ routeStatus (getGame "quina" (some emptyDoc)).1 = 200 :=
  getGame_empty_window "quina" emptyDoc (by decide) rfl
